import Mathlib

/-!
Verification of the monster nickname resolution engine of the `rpad-cogs`
repository (module `padguide2/padguide2.py`), against its natural-language
specification.

The Python source is shallowly embedded: each relevant Python function or
class method is translated into an executable Lean definition over explicit
data.  Python dicts are modelled as association lists updated in insertion
order (`dictInsert`), Python sets of matches as deduplicated lists, Python
strings as their character sequences `PyStr` (character classification such
as `str.isdigit` restricted to its ASCII fragment, which covers every
string the claims mention), and Python floats as exact rationals `ℚ`.

Helpers imported from the external `rpadutils` module (which is not part of
this repository) are modelled from the specification where needed and are
marked as such in their doc comments.
-/

namespace Padguide2

/-! ## Python dict model

A Python dict is an insertion-ordered map.  We model it as an association
list with unique keys; `dictInsert` models `d[k] = v`: it replaces the
value in place when the key is present and appends otherwise. -/

/-- Model of the Python dict assignment `d[k] = v`. -/
def dictInsert {κ α : Type} [BEq κ] (l : List (κ × α)) (k : κ) (v : α) :
    List (κ × α) :=
  if l.any (fun p => p.1 == k) then
    l.map (fun p => if p.1 == k then (k, v) else p)
  else
    l ++ [(k, v)]

theorem mem_dictInsert {κ α : Type} [BEq κ] {l : List (κ × α)} {k : κ}
    {v : α} {p : κ × α} (h : p ∈ dictInsert l k v) : p ∈ l ∨ p.2 = v := by
  unfold dictInsert at h
  split at h
  · rcases List.mem_map.mp h with ⟨q, hq, hqe⟩
    by_cases hk : (q.1 == k) = true
    · right; simp [hk] at hqe; simp [← hqe]
    · left; simp [hk] at hqe; exact hqe ▸ hq
  · rcases List.mem_append.mp h with h' | h'
    · exact Or.inl h'
    · right; simp at h'; simp [h']

theorem bool_not_true {b : Bool} (h : ¬b = true) : b = false := by
  cases b
  · rfl
  · exact absurd rfl h

theorem lookup_cons_hit {κ α : Type} [BEq κ] {k' : κ} (p : κ × α)
    (t : List (κ × α)) (h : (k' == p.1) = true) :
    List.lookup k' (p :: t) = some p.2 := by
  cases p
  simp only [List.lookup]
  rw [show (k' == (Prod.fst _)) = true from h]

theorem lookup_cons_miss {κ α : Type} [BEq κ] {k' : κ} (p : κ × α)
    (t : List (κ × α)) (h : (k' == p.1) = false) :
    List.lookup k' (p :: t) = List.lookup k' t := by
  cases p
  simp only [List.lookup]
  rw [show (k' == (Prod.fst _)) = false from h]

theorem lookup_replace_self {κ α : Type} [BEq κ] [LawfulBEq κ]
    (l : List (κ × α))
    (k : κ) (v : α) (hany : (l.any fun p => p.1 == k) = true) :
    List.lookup k (l.map fun p => if p.1 == k then (k, v) else p)
      = some v := by
  induction l with
  | nil => simp at hany
  | cons p t ih =>
    by_cases hpk : (p.1 == k) = true
    · simp only [List.map_cons, if_pos hpk]
      exact lookup_cons_hit (k, v) _ (by simp)
    · have hpkf := bool_not_true hpk
      simp only [List.any_cons, hpkf, Bool.false_or] at hany
      simp only [List.map_cons, if_neg hpk]
      have hkp : (k == p.1) = false := by
        simp only [beq_eq_false_iff_ne] at hpkf ⊢
        exact fun h => hpkf h.symm
      rw [lookup_cons_miss p _ hkp, ih hany]

theorem lookup_replace_other {κ α : Type} [BEq κ] [LawfulBEq κ]
    (l : List (κ × α))
    {k k' : κ} (v : α) (hne : (k' == k) = false) :
    List.lookup k' (l.map fun p => if p.1 == k then (k, v) else p)
      = List.lookup k' l := by
  induction l with
  | nil => simp
  | cons p t ih =>
    by_cases hpk : (p.1 == k) = true
    · have hpkeq : p.1 = k := beq_iff_eq.mp hpk
      have hk'p : (k' == p.1) = false := by rw [hpkeq]; exact hne
      simp only [List.map_cons, if_pos hpk]
      rw [lookup_cons_miss (k, v) _ (by simpa using hne),
        lookup_cons_miss p t hk'p, ih]
    · simp only [List.map_cons, if_neg hpk]
      by_cases hk'p : (k' == p.1) = true
      · rw [lookup_cons_hit p _ hk'p, lookup_cons_hit p t hk'p]
      · have hk'pf := bool_not_true hk'p
        rw [lookup_cons_miss p _ hk'pf, lookup_cons_miss p t hk'pf, ih]

theorem lookup_none_of_no_key {κ α : Type} [BEq κ] [LawfulBEq κ]
    (l : List (κ × α))
    (k : κ) (hany : (l.any fun p => p.1 == k) = false) :
    List.lookup k l = none := by
  induction l with
  | nil => simp
  | cons p t ih =>
    simp only [List.any_cons, Bool.or_eq_false_iff] at hany
    have hkp : (k == p.1) = false := by
      have := hany.1
      simp only [beq_eq_false_iff_ne] at this ⊢
      exact fun h => this h.symm
    rw [lookup_cons_miss p t hkp, ih hany.2]

theorem lookup_append_single_self {κ α : Type} [BEq κ] [LawfulBEq κ]
    (l : List (κ × α))
    (k : κ) (v : α) (hnone : List.lookup k l = none) :
    List.lookup k (l ++ [(k, v)]) = some v := by
  induction l with
  | nil => exact lookup_cons_hit (k, v) [] (by simp)
  | cons p t ih =>
    by_cases hkp : (k == p.1) = true
    · rw [lookup_cons_hit p t hkp] at hnone
      exact absurd hnone (by simp)
    · have hkpf := bool_not_true hkp
      rw [lookup_cons_miss p t hkpf] at hnone
      rw [List.cons_append, lookup_cons_miss p _ hkpf, ih hnone]

theorem lookup_append_single_other {κ α : Type} [BEq κ] [LawfulBEq κ]
    (l : List (κ × α))
    {k k' : κ} (v : α) (hne : (k' == k) = false) :
    List.lookup k' (l ++ [(k, v)]) = List.lookup k' l := by
  induction l with
  | nil => simp [List.lookup, hne]
  | cons p t ih =>
    by_cases hk'p : (k' == p.1) = true
    · rw [List.cons_append, lookup_cons_hit p _ hk'p, lookup_cons_hit p t hk'p]
    · have hk'pf := bool_not_true hk'p
      rw [List.cons_append, lookup_cons_miss p _ hk'pf,
        lookup_cons_miss p t hk'pf, ih]

theorem lookup_dictInsert_self {κ α : Type} [BEq κ] [LawfulBEq κ]
    (l : List (κ × α))
    (k : κ) (v : α) : (dictInsert l k v).lookup k = some v := by
  unfold dictInsert
  split
  · rename_i hany
    exact lookup_replace_self l k v hany
  · rename_i hany
    have hanyf := bool_not_true hany
    exact lookup_append_single_self l k v (lookup_none_of_no_key l k hanyf)

theorem lookup_dictInsert_other {κ α : Type} [BEq κ] [LawfulBEq κ]
    (l : List (κ × α))
    (k k' : κ) (v : α) (hne : k' ≠ k) :
    (dictInsert l k v).lookup k' = l.lookup k' := by
  have hnb : (k' == k) = false := by simpa using hne
  unfold dictInsert
  split
  · exact lookup_replace_other l v hnb
  · exact lookup_append_single_other l v hnb

/-! ## Record Store load (`PgRawDatabase._load`)

The Python source builds `item_list` from the parsed JSON and then filters:
`result_map = {item.key(): item for item in item_list if not item.deleted()}`
followed by `self._all_pg_items.extend(result_map.values())`.  The entity
type is abstracted by its two relevant observations, `key` and `deleted`. -/

/-- Model of the dict comprehension in `PgRawDatabase._load`: iterate the
item list, skipping items whose `deleted()` is true and assigning
`key(item) -> item` otherwise. -/
def loadMap {α : Type} (key : α → Nat) (deleted : α → Bool)
    (items : List α) : List (Nat × α) :=
  items.foldl
    (fun acc i => if deleted i then acc else dictInsert acc (key i) i) []

/-- Model of `self._all_pg_items.extend(result_map.values())`. -/
def extendAllPgItems {α : Type} (globalItems : List α)
    (resultMap : List (Nat × α)) : List α :=
  globalItems ++ resultMap.map (fun p => p.2)

theorem loadMap_acc_not_deleted {α : Type} (key : α → Nat)
    (deleted : α → Bool) (items : List α) :
    ∀ acc : List (Nat × α), (∀ p ∈ acc, deleted p.2 = false) →
      ∀ p ∈ items.foldl
        (fun acc i => if deleted i then acc else dictInsert acc (key i) i)
        acc, deleted p.2 = false := by
  induction items with
  | nil => intro acc hacc p hp; exact hacc p hp
  | cons i t ih =>
    intro acc hacc p hp
    simp only [List.foldl_cons] at hp
    by_cases hd : deleted i = true
    · exact ih acc hacc p (by simpa [hd] using hp)
    · simp only [hd, if_false] at hp
      refine ih (dictInsert acc (key i) i) ?_ p hp
      intro q hq
      rcases mem_dictInsert hq with h | h
      · exact hacc q h
      · rw [h]; simpa using hd

/-! ## Evolution Grouper (`MonsterGroup`)

The relevant observable state of a `PgMonster` for grouping is its four
individual acquisition flags and the four group-broadcast flags that
`MonsterGroup._initialize_members` overwrites.  The `evo_to` edges form a
tree rooted at the base monster, modelled by `EvoTree`. -/

structure GMonster where
  farmable : Bool
  in_pem : Bool
  in_rem : Bool
  in_mpshop : Bool
  farmable_evo : Bool
  pem_evo : Bool
  rem_evo : Bool
  mp_evo : Bool
  deriving DecidableEq, Repr

/-- Tree of monsters linked by `evo_to` edges, rooted at a base monster. -/
inductive EvoTree where
  | node (m : GMonster) (evos : List EvoTree)

mutual
/-- Model of `MonsterGroup._recursive_add`: pre-order collection of the
tree members (self first, then each `evo_to` target recursively). -/
def recursiveAdd : EvoTree → List GMonster
  | .node m evos => m :: recursiveAddList evos

def recursiveAddList : List EvoTree → List GMonster
  | [] => []
  | t :: ts => recursiveAdd t ++ recursiveAddList ts
end

/-- Model of `MonsterGroup._initialize_members`: fold the four acquisition
flags across the members with `or` (starting from `False`), then overwrite
every member's group-broadcast flags with the folded values. -/
def initializeMembers (members : List GMonster) : List GMonster :=
  let farmable_evo := members.foldl (fun acc m => acc || m.farmable) false
  let pem_evo := members.foldl (fun acc m => acc || m.in_pem) false
  let rem_evo := members.foldl (fun acc m => acc || m.in_rem) false
  let mp_evo := members.foldl (fun acc m => acc || m.in_mpshop) false
  members.map (fun m =>
    { m with farmable_evo := farmable_evo, pem_evo := pem_evo,
             rem_evo := rem_evo, mp_evo := mp_evo })

/-- Model of the `MonsterGroup` constructor: collect the members of the
evolution tree of the base monster, then initialize the shared flags. -/
def monsterGroupMembers (base : EvoTree) : List GMonster :=
  initializeMembers (recursiveAdd base)

theorem foldl_or_eq_any (l : List GMonster) (f : GMonster → Bool)
    (b : Bool) : l.foldl (fun acc m => acc || f m) b = (b || l.any f) := by
  induction l generalizing b with
  | nil => simp
  | cons m t ih => simp [List.foldl_cons, ih, Bool.or_assoc]

/-! ## Weighted stats (`PgMonster.__init__`)

The source computes `self.weighted_stats = int(self.hp / 10 + self.atk / 5
+ self.rcv / 3)` on the integer base stats.  Python float arithmetic is
abstracted to exact rationals, and `int(...)` (truncation toward zero) is
`pytrunc`. -/

/-- Model of the Python builtin `int(...)` applied to a rational value:
truncation toward zero. -/
def pytrunc (q : ℚ) : ℤ := if 0 ≤ q then ⌊q⌋ else -⌊-q⌋

/-- Model of the `weighted_stats` computation in `PgMonster.__init__`. -/
def weighted_stats (hp atk rcv : ℕ) : ℤ :=
  pytrunc ((hp : ℚ) / 10 + (atk : ℚ) / 5 + (rcv : ℚ) / 3)

/-! ## Python string model

Core `String` utilities in Lean are partly opaque to kernel evaluation, so
Python strings are modelled as their underlying character sequences,
`PyStr := List Char`, with structurally recursive translations of the
Python string methods the source uses (`lower`, `strip`, `split`,
`startswith`, `replace`, `in`, `join`).  All names and queries the claims
mention are ASCII, where these agree with full Python semantics. -/

abbrev PyStr := List Char

/-- Model of Python `str.lower` (ASCII fragment). -/
def pyLower (s : PyStr) : PyStr := s.map Char.toLower

/-- Python whitespace for `str.strip` (ASCII fragment). -/
def isPySpace (c : Char) : Bool :=
  c == ' ' || c == '\t' || c == '\n' || c == '\r' ||
    c == Char.ofNat 11 || c == Char.ofNat 12

/-- Model of Python `str.strip()`. -/
def pyTrim (s : PyStr) : PyStr :=
  ((s.dropWhile isPySpace).reverse.dropWhile isPySpace).reverse

/-- Model of Python `s.startswith(pre)`. -/
def pyStartsWith (s pre : PyStr) : Bool := pre.isPrefixOf s

/-- Model of Python `s.split(sep)` for a one-character separator. -/
def splitOnChar (c : Char) (s : PyStr) : List PyStr :=
  s.foldr
    (fun ch acc =>
      match acc with
      | [] => [[ch]]
      | cur :: rest => if ch == c then [] :: cur :: rest else (ch :: cur) :: rest)
    [[]]

/-- Fuel-indexed helper for `pyReplace`; the fuel only bounds the
recursion depth and `s.length` fuel is always sufficient, so this computes
exactly the Python result for a nonempty pattern. -/
def pyReplaceAux (pat repl : PyStr) : Nat → PyStr → PyStr
  | 0, s => s
  | _ + 1, [] => []
  | fuel + 1, ch :: rest =>
    if pat.isPrefixOf (ch :: rest) then
      repl ++ pyReplaceAux pat repl fuel ((ch :: rest).drop pat.length)
    else
      ch :: pyReplaceAux pat repl fuel rest

/-- Model of Python `s.replace(pat, repl)` for a nonempty pattern:
replace every non-overlapping occurrence, scanning left to right.  (The
source only ever calls it with the nonempty literals `awoken` and
`reincarnated`; an empty pattern is passed through unchanged.) -/
def pyReplace (s pat repl : PyStr) : PyStr :=
  if pat.isEmpty then s else pyReplaceAux pat repl s.length s

/-- Model of the Python substring test `pat in s`. -/
def containsSubstr (s pat : PyStr) : Bool :=
  (List.range (s.length + 1)).any (fun i => pat.isPrefixOf (s.drop i))

/-- Model of Python `sep.join(xs)`. -/
def pyIntercalate (sep : PyStr) : List PyStr → PyStr
  | [] => []
  | [x] => x
  | x :: y :: rest => x ++ sep ++ pyIntercalate sep (y :: rest)

/-! ## Basename derivation (`NamedMonsterGroup._compute_monster_basename`)

Direct translation of the Python method, a pure function of the NA display
name. -/

/-- Model of `NamedMonsterGroup._compute_monster_basename` applied to a
monster whose NA display name is `name_na`. -/
def compute_monster_basename (name_na : PyStr) : PyStr :=
  let basename := pyLower name_na
  let basename :=
    if basename.contains ',' then
      let name_parts := splitOnChar ',' basename
      if pyStartsWith (pyTrim (name_parts.getD 1 [])) ("the ".toList) then
        name_parts.getD 0 []
      else
        name_parts.getLastD []
    else basename
  let basename :=
    ["awoken".toList, "reincarnated".toList].foldl
      (fun b x => if pyStartsWith b x then pyReplace b x [] else b) basename
  pyTrim basename

/-- Statement of the claim about `_compute_monster_basename`, rendered as a
function following the specification text: lowercase; comma handling as in
the source; then strip a LEADING `awoken` or `reincarnated` token (dropping
it once from the front); trim. -/
def computeMonsterBasenameClaim (name_na : PyStr) : PyStr :=
  let basename := pyLower name_na
  let basename :=
    if basename.contains ',' then
      let name_parts := splitOnChar ',' basename
      if pyStartsWith (pyTrim (name_parts.getD 1 [])) ("the ".toList) then
        name_parts.getD 0 []
      else
        name_parts.getLastD []
    else basename
  let basename :=
    ["awoken".toList, "reincarnated".toList].foldl
      (fun b x => if pyStartsWith b x then b.drop x.length else b) basename
  pyTrim basename

/-- Statement of the amended claim, rendered as a function following the
amended specification text: when the (comma-reduced, lowercased) name
starts with `awoken`, EVERY occurrence of `awoken` is removed; then the
same for `reincarnated` on the intermediate result. -/
def computeMonsterBasenameAmended (name_na : PyStr) : PyStr :=
  let lowered := pyLower name_na
  let commaReduced :=
    if lowered.contains ',' then
      let name_parts := splitOnChar ',' lowered
      if pyStartsWith (pyTrim (name_parts.getD 1 [])) ("the ".toList) then
        name_parts.getD 0 []
      else
        name_parts.getLastD []
    else lowered
  let awokenStripped :=
    if pyStartsWith commaReduced ("awoken".toList) then
      pyReplace commaReduced ("awoken".toList) []
    else commaReduced
  let revoStripped :=
    if pyStartsWith awokenStripped ("reincarnated".toList) then
      pyReplace awokenStripped ("reincarnated".toList) []
    else awokenStripped
  pyTrim revoStripped

/-! ## Query projection (`NamedMonster`) and tie-break (`pickBestMonster`)

The observable fields of a `NamedMonster` needed by the query resolver. -/

structure NamedMonsterE where
  monster_no : Nat
  monster_no_na : Nat
  name_na : PyStr
  name_jp : PyStr
  rarity : Nat
  group_size : Nat
  is_low_priority : Bool
  deriving DecidableEq, Repr

/-- Model of the sort key `(not x.is_low_priority, x.rarity,
x.monster_no_na)` used by `MonsterIndex.pickBestMonster`; the Python
boolean is encoded as 0/1 so that tuple comparison is numeric throughout. -/
def nmKey (x : NamedMonsterE) : Nat × Nat × Nat :=
  ((if x.is_low_priority then 0 else 1), x.rarity, x.monster_no_na)

/-- Lexicographic strict greater-than on the key triples, as Python tuple
comparison performs it. -/
def tripleGt (a b : Nat × Nat × Nat) : Bool :=
  Nat.blt b.1 a.1 ||
    (a.1 == b.1 && (Nat.blt b.2.1 a.2.1 ||
      (a.2.1 == b.2.1 && Nat.blt b.2.2 a.2.2)))

/-- Model of `MonsterIndex.pickBestMonster` on a non-empty collection,
mirroring CPython `max(iterable, key=...)`: scan the candidates, replacing
the current best exactly when the new key is strictly greater. -/
def pickBestMonster (h : NamedMonsterE) (t : List NamedMonsterE) :
    NamedMonsterE :=
  t.foldl (fun best x => if tripleGt (nmKey x) (nmKey best) then x else best) h

/-! ## Query resolver (`MonsterIndex.find_monster`)

The index state is the collection of maps built by `MonsterIndex.__init__`
that `find_monster` reads.  Python dicts appear as association lists; dict
iteration (`for nickname, m in self.all_entries.items()`) is list
traversal, and the `matches` set is the deduplicated list of hits.

The two fuzzy stages call `difflib.get_close_matches(query, keys, n=1,
cutoff)` and immediately index the dict with the single returned key; that
external-library call is abstracted as the oracle parameter
`closeMatches cutoff query dict`, returning the entry the matched key maps
to, or `none` when `difflib` returns no match above the cutoff. -/

structure MonsterIndexE where
  all_entries : List (PyStr × NamedMonsterE)
  two_word_entries : List (PyStr × NamedMonsterE)
  all_monsters : List NamedMonsterE
  all_na_name_to_monsters : List (PyStr × NamedMonsterE)
  monster_no_na_to_named_monster : List (Nat × NamedMonsterE)

/-- Modelled from the spec: `rpadutils.containsJp` lives outside this
repository; the spec describes it as detecting non-Latin (Japanese) script,
so it is modelled as a scan for characters in the Hiragana, Katakana, CJK
ideograph or full-width ranges. -/
def isJpChar (c : Char) : Bool :=
  (0x3000 ≤ c.toNat && c.toNat ≤ 0x30ff) ||
    (0x4e00 ≤ c.toNat && c.toNat ≤ 0x9fff) ||
    (0xff00 ≤ c.toNat && c.toNat ≤ 0xffef)

def containsJp (s : PyStr) : Bool := s.any isJpChar

/-- Model of Python `str.isdigit` on its ASCII fragment: nonempty and all
characters are decimal digits. -/
def isDigitQuery (s : PyStr) : Bool := !s.isEmpty && s.all Char.isDigit

/-- Model of Python `int(query)` for an all-digit query string. -/
def natOfDigits (s : PyStr) : Nat :=
  s.foldl (fun n c => 10 * n + (c.toNat - 48)) 0

/-- Model of `",".join(map(lambda x: x.name_na, matches))`. -/
def joinNames (ms : List NamedMonsterE) : PyStr :=
  pyIntercalate [','] (ms.map (fun m => m.name_na))

/-- Model of the scan stages of `MonsterIndex.find_monster` (everything
after the minimum-length gate): the space-delimited nickname prefix scan,
the plain nickname prefix scan, the full-name prefix scan, the two-word
index lookup, the two substring scans, the two fuzzy stages, and the final
not-found return.  Each stage returns on a nonempty match set, so the
shared `matches` set of the source is empty at the start of every stage. -/
def findScan (idx : MonsterIndexE)
    (closeMatches : ℚ → PyStr → List (PyStr × NamedMonsterE) →
      Option NamedMonsterE)
    (query : PyStr) :
    Option NamedMonsterE × Option String × Option String :=
  match ((idx.all_entries.filter
      (fun p => pyStartsWith p.1 (query ++ [' ']))).map (fun p => p.2)).dedup with
  | m :: ms =>
    (some (pickBestMonster m ms), none,
      some ("Space nickname prefix, max of " ++ toString (m :: ms).length))
  | [] =>
  match ((idx.all_entries.filter
      (fun p => pyStartsWith p.1 query)).map (fun p => p.2)).dedup with
  | m :: ms =>
    (some (pickBestMonster m ms), none,
      some ("Nickname prefix, max of " ++ toString (m :: ms).length ++
        ", matches=(" ++ String.mk (joinNames (m :: ms)) ++ ")"))
  | [] =>
  match ((idx.all_entries.filter
      (fun p => pyStartsWith (pyLower p.2.name_na) query ||
        pyStartsWith (pyLower p.2.name_jp) query)).map (fun p => p.2)).dedup with
  | m :: ms =>
    (some (pickBestMonster m ms), none,
      some ("Full name, max of " ++ toString (m :: ms).length))
  | [] =>
  match idx.two_word_entries.lookup query with
  | some m =>
    (some m, none,
      some ("Second-word nickname prefix, max of " ++
        toString ([] : List NamedMonsterE).length))
  | none =>
  match ((idx.all_entries.filter
      (fun p => containsSubstr (pyLower p.2.name_na) query ||
        containsSubstr (pyLower p.2.name_jp) query)).map (fun p => p.2)).dedup with
  | m :: ms =>
    (some (pickBestMonster m ms), none,
      some ("Full name match on nickname, max of " ++ toString (m :: ms).length))
  | [] =>
  match (idx.all_monsters.filter
      (fun m => containsSubstr (pyLower m.name_na) query ||
        containsSubstr (pyLower m.name_jp) query)).dedup with
  | m :: ms =>
    (some (pickBestMonster m ms), none,
      some ("Full name match on full list, max of " ++ toString (m :: ms).length))
  | [] =>
  match closeMatches ((8 : ℚ) / 10) query idx.all_entries with
  | some m => (some m, none, some "Close nickname match")
  | none =>
  match closeMatches ((9 : ℚ) / 10) query idx.all_na_name_to_monsters with
  | some m => (some m, none, some "Close name match")
  | none => (none, some ("Could not find a match for: " ++ String.mk query), none)

/-- Model of `MonsterIndex.find_monster` on the normalized query (the
source first applies `rpadutils.rmdiacritics(query).lower().strip()`, a
helper outside this repository; the claims all quantify over the resulting
normalized string).  Returns the `(monster, error, match-method)` triple of
the source. -/
def find_monster (idx : MonsterIndexE)
    (closeMatches : ℚ → PyStr → List (PyStr × NamedMonsterE) →
      Option NamedMonsterE)
    (query : PyStr) :
    Option NamedMonsterE × Option String × Option String :=
  if isDigitQuery query then
    match idx.monster_no_na_to_named_monster.lookup (natOfDigits query) with
    | none => (none, some "Looks like a monster ID but was not found", none)
    | some m => (some m, none, some "ID lookup")
  else
    match idx.all_entries.lookup query with
    | some m => (some m, none, some "Exact nickname")
    | none =>
      if query.length < 2 && containsJp query then
        (none, some "Japanese queries must be at least 2 characters", none)
      else if query.length < 4 && !containsJp query then
        (none, some "Your query must be at least 4 letters", none)
      else
        findScan idx closeMatches query

/-! ## Manual nickname overrides (`MonsterIndex.__init__`, lines 1691-1694)

After the bulk priority-ordered build of `all_entries`, the source runs
`for nickname, monster_no_na in nickname_overrides.items(): nm =
self.monster_no_na_to_named_monster.get(monster_no_na); if nm:
self.all_entries[nickname] = nm`. -/

def applyNicknameOverrides (overrides : List (PyStr × Nat))
    (idToNm : List (Nat × NamedMonsterE))
    (entries : List (PyStr × NamedMonsterE)) :
    List (PyStr × NamedMonsterE) :=
  overrides.foldl
    (fun acc p =>
      match idToNm.lookup p.2 with
      | some nm => dictInsert acc p.1 nm
      | none => acc)
    entries
/-! ## Claim theorems -/

/-- C8: for every entity type, the loaded id-to-entity map produced by
`PgRawDatabase._load` contains no entity whose `deleted` predicate is true;
every deleted source row is filtered out of the map, and the global
traversal list `_all_pg_items` is extended only with the surviving values,
so a deleted entity reaches it only if it was already there. -/
theorem c8_load_filters_deleted :
    (∀ (α : Type) (key : α → Nat) (deleted : α → Bool) (items : List α)
      (p : Nat × α), p ∈ loadMap key deleted items → deleted p.2 = false) ∧
    (∀ (α : Type) (key : α → Nat) (deleted : α → Bool) (items : List α)
      (globalItems : List α) (e : α), deleted e = true →
      e ∈ extendAllPgItems globalItems (loadMap key deleted items) →
      e ∈ globalItems) := by
  constructor
  · intro α key deleted items p hp
    exact loadMap_acc_not_deleted key deleted items [] (by simp) p hp
  · intro α key deleted items globalItems e hdel hmem
    rcases List.mem_append.mp hmem with h | h
    · exact h
    · exfalso
      rcases List.mem_map.mp h with ⟨p, hp, hpe⟩
      have := loadMap_acc_not_deleted key deleted items [] (by simp) p hp
      rw [hpe] at this
      rw [this] at hdel
      exact Bool.false_ne_true hdel

/-- Witness for C8 at a concrete entity type (pairs of key and deleted
flag): the single surviving item is not deleted, and a deleted entity in
the extended global list was already in the global list. -/
theorem c8_load_filters_deleted_witness :
    (((1 : Nat), false) : Nat × Bool).2 = false ∧
      (((2 : Nat), true) : Nat × Bool) ∈ [(((2 : Nat), true) : Nat × Bool)] := by
  constructor
  · exact c8_load_filters_deleted.1 (Nat × Bool) Prod.fst Prod.snd
      [(1, false), (2, true)] (1, (1, false)) (by decide)
  · exact c8_load_filters_deleted.2 (Nat × Bool) Prod.fst Prod.snd
      [(1, false), (2, true)] [((2 : Nat), true)] ((2 : Nat), true)
      (by decide) (by decide)

theorem mem_initializeMembers {ms : List GMonster} {m : GMonster}
    (h : m ∈ initializeMembers ms) :
    m.farmable_evo = ms.any (fun x => x.farmable) ∧
      m.pem_evo = ms.any (fun x => x.in_pem) ∧
      m.rem_evo = ms.any (fun x => x.in_rem) ∧
      m.mp_evo = ms.any (fun x => x.in_mpshop) := by
  unfold initializeMembers at h
  rcases List.mem_map.mp h with ⟨x, _, hxe⟩
  subst hxe
  simp [foldl_or_eq_any]

/-- Scenario of C1: a non-farmable base monster with one farmable evolved
member. -/
def scenarioBase : GMonster :=
  { farmable := false, in_pem := false, in_rem := false, in_mpshop := false,
    farmable_evo := false, pem_evo := false, rem_evo := false,
    mp_evo := false }

def scenarioEvolved : GMonster :=
  { farmable := true, in_pem := false, in_rem := false, in_mpshop := false,
    farmable_evo := true, pem_evo := false, rem_evo := false,
    mp_evo := false }

def scenarioTree : EvoTree := .node scenarioBase [.node scenarioEvolved []]

/-- C1: after `MonsterGroup` construction, every member's `farmable_evo`,
`pem_evo`, `rem_evo` and `mp_evo` equal the OR-reduction of the members'
individual `farmable`, `in_pem`, `in_rem` and `in_mpshop` flags (the
broadcast overwrites whatever individual value the member held); in
particular, in the scenario of a non-farmable base with one farmable
evolved member, every member (the base included) ends with `farmable_evo`
true while the base's own `farmable` stays false. -/
theorem c1_group_or_reduction :
    (∀ (t : EvoTree) (m : GMonster), m ∈ monsterGroupMembers t →
      m.farmable_evo = (recursiveAdd t).any (fun x => x.farmable) ∧
        m.pem_evo = (recursiveAdd t).any (fun x => x.in_pem) ∧
        m.rem_evo = (recursiveAdd t).any (fun x => x.in_rem) ∧
        m.mp_evo = (recursiveAdd t).any (fun x => x.in_mpshop)) ∧
    ((monsterGroupMembers scenarioTree).map (fun m => m.farmable_evo)
        = [true, true] ∧
      scenarioBase.farmable = false) := by
  constructor
  · intro t m hm
    exact mem_initializeMembers hm
  · constructor
    · rfl
    · rfl

/-- Witness for C1: the theorem applied to the scenario tree's base member
shows its broadcast flag is the OR over both members. -/
theorem c1_group_or_reduction_witness :
    ((monsterGroupMembers scenarioTree).getD 0 scenarioBase).farmable_evo
      = (recursiveAdd scenarioTree).any (fun x => x.farmable) := by
  exact (c1_group_or_reduction.1 scenarioTree
    ((monsterGroupMembers scenarioTree).getD 0 scenarioBase)
    (by decide)).1

/-- Counterexample for C2: at base stats `hp = 5`, `atk = 4`, `rcv = 2`,
the source value `int(hp / 10 + atk / 5 + rcv / 3)` is 1, while the
claim's independently truncated terms sum to 0. -/
theorem c2_weighted_stats_counterexample :
    weighted_stats 5 4 2
      ≠ pytrunc ((5 : ℚ) / 10) + pytrunc ((4 : ℚ) / 5)
          + pytrunc ((2 : ℚ) / 3) := by
  unfold weighted_stats pytrunc
  norm_num

/-- C2 (amended): `weighted_stats` applies a single truncation to the full
sum `hp / 10 + atk / 5 + rcv / 3` (not one per term); on the nonnegative
base stats it equals the integer `(3 * hp + 6 * atk + 10 * rcv) / 30`
under natural floor division. -/
theorem c2_weighted_stats_amended (hp atk rcv : ℕ) :
    weighted_stats hp atk rcv
      = ((3 * hp + 6 * atk + 10 * rcv) / 30 : ℕ) := by
  unfold weighted_stats pytrunc
  have h0 : (0 : ℚ) ≤ (hp : ℚ) / 10 + (atk : ℚ) / 5 + (rcv : ℚ) / 3 := by
    positivity
  rw [if_pos h0]
  have hq : (hp : ℚ) / 10 + (atk : ℚ) / 5 + (rcv : ℚ) / 3
      = (((3 * hp + 6 * atk + 10 * rcv : ℕ) : ℤ) : ℚ) / ((30 : ℕ) : ℚ) := by
    push_cast
    ring
  rw [hq, Rat.floor_intCast_div_natCast, ← Int.natCast_div]

/-- Counterexample for C5: on the display name `awoken mega awoken` the
source removes EVERY occurrence of the token (via `str.replace`), yielding
`mega`, while the claimed leading-token strip yields `mega awoken`. -/
theorem c5_basename_counterexample :
    compute_monster_basename ("awoken mega awoken".toList)
      ≠ computeMonsterBasenameClaim ("awoken mega awoken".toList) := by
  decide

/-- C5 (amended): `_compute_monster_basename` is the pure string function
that lowercases the display name; on a comma, takes the text after the last
comma unless the trimmed segment following the first comma starts with
`the `, in which case it keeps the text before the first comma; then, if
the result starts with `awoken`, removes every occurrence of `awoken`, and
likewise every occurrence of `reincarnated` if the intermediate result
starts with it; and finally trims surrounding whitespace.  It reads only
the display name and mutates nothing. -/
theorem c5_basename_amended (name_na : PyStr) :
    compute_monster_basename name_na = computeMonsterBasenameAmended name_na := by
  unfold compute_monster_basename computeMonsterBasenameAmended
  simp only [List.foldl_cons, List.foldl_nil]

/-- Arithmetic characterization of the lexicographic tuple comparison. -/
theorem tripleGt_eq_true_iff (a b : Nat × Nat × Nat) :
    tripleGt a b = true ↔
      (b.1 < a.1 ∨ (a.1 = b.1 ∧ (b.2.1 < a.2.1 ∨
        (a.2.1 = b.2.1 ∧ b.2.2 < a.2.2)))) := by
  unfold tripleGt
  simp [Nat.blt_eq]

theorem tripleGt_irrefl (a : Nat × Nat × Nat) : tripleGt a a = false := by
  apply bool_not_true
  rw [tripleGt_eq_true_iff]
  omega

theorem tripleGt_trans {a b c : Nat × Nat × Nat}
    (hab : tripleGt a b = true) (hbc : tripleGt b c = true) :
    tripleGt a c = true := by
  rw [tripleGt_eq_true_iff] at hab hbc ⊢
  omega

theorem tripleGt_le_gt {a b c : Nat × Nat × Nat}
    (hab : tripleGt a b = false) (hac : tripleGt a c = true) :
    tripleGt b c = true := by
  rw [tripleGt_eq_true_iff] at hac ⊢
  have hab' : ¬(b.1 < a.1 ∨ (a.1 = b.1 ∧ (b.2.1 < a.2.1 ∨
      (a.2.1 = b.2.1 ∧ b.2.2 < a.2.2)))) := by
    rw [← tripleGt_eq_true_iff]
    simp [hab]
  omega

theorem pickBest_foldl_mem (t : List NamedMonsterE) :
    ∀ b : NamedMonsterE,
      (t.foldl (fun best x =>
        if tripleGt (nmKey x) (nmKey best) then x else best) b) ∈ b :: t := by
  induction t with
  | nil => intro b; simp
  | cons y ys ih =>
    intro b
    simp only [List.foldl_cons]
    by_cases hg : tripleGt (nmKey y) (nmKey b) = true
    · rw [if_pos hg]
      rcases (List.mem_cons).mp (ih y) with h | h
      · simp [h]
      · simp [List.mem_cons, Or.inr (Or.inr h)]
    · rw [if_neg hg]
      rcases (List.mem_cons).mp (ih b) with h | h
      · simp [h]
      · simp [List.mem_cons, Or.inr (Or.inr h)]

theorem pickBest_foldl_max (t : List NamedMonsterE) :
    ∀ b : NamedMonsterE, ∀ x ∈ b :: t,
      tripleGt (nmKey x)
        (nmKey (t.foldl (fun best x =>
          if tripleGt (nmKey x) (nmKey best) then x else best) b)) = false := by
  induction t with
  | nil =>
    intro b x hx
    simp only [List.mem_cons, List.not_mem_nil, or_false] at hx
    subst hx
    simp only [List.foldl_nil]
    exact tripleGt_irrefl _
  | cons y ys ih =>
    intro b x hx
    simp only [List.foldl_cons]
    by_cases hg : tripleGt (nmKey y) (nmKey b) = true
    · rw [if_pos hg]
      rcases List.mem_cons.mp hx with hxb | hx'
      · subst hxb
        apply bool_not_true
        intro hcon
        have hyr := ih y y (List.mem_cons_self y ys)
        have : tripleGt (nmKey y)
            (nmKey (ys.foldl (fun best x =>
              if tripleGt (nmKey x) (nmKey best) then x else best) y)) = true :=
          tripleGt_trans hg hcon
        rw [hyr] at this
        exact Bool.false_ne_true this
      · exact ih y x hx'
    · have hgf := bool_not_true hg
      rw [if_neg hg]
      rcases List.mem_cons.mp hx with hxb | hx'
      · rw [hxb]
        exact ih b b (List.mem_cons_self b ys)
      · rcases List.mem_cons.mp hx' with hxy | hxys
        · subst hxy
          apply bool_not_true
          intro hcon
          have hbr := ih b b (List.mem_cons_self b ys)
          have : tripleGt (nmKey b)
              (nmKey (ys.foldl (fun best x =>
                if tripleGt (nmKey x) (nmKey best) then x else best) b)) = true :=
            tripleGt_le_gt hgf hcon
          rw [hbr] at this
          exact Bool.false_ne_true this
        · exact ih b x (List.mem_cons.mpr (Or.inr hxys))

/-- C3: `pickBestMonster` returns a candidate that is maximal under the key
`(not is_low_priority, rarity, monster_no_na)` (no candidate's key is
strictly greater than the winner's), and for two candidates with equal
low-priority classification and equal rarity the one with the larger id
wins regardless of the order in which the set yields them. -/
theorem c3_pick_best_max :
    (∀ (h : NamedMonsterE) (t : List NamedMonsterE),
      pickBestMonster h t ∈ h :: t ∧
        ∀ x ∈ h :: t,
          tripleGt (nmKey x) (nmKey (pickBestMonster h t)) = false) ∧
    (∀ a b : NamedMonsterE, a.is_low_priority = b.is_low_priority →
      a.rarity = b.rarity → a.monster_no_na < b.monster_no_na →
      pickBestMonster a [b] = b ∧ pickBestMonster b [a] = b) := by
  constructor
  · intro h t
    exact ⟨pickBest_foldl_mem t h, pickBest_foldl_max t h⟩
  · intro a b hlp hr hid
    have hba : tripleGt (nmKey b) (nmKey a) = true := by
      rw [tripleGt_eq_true_iff]
      refine Or.inr ⟨?_, Or.inr ⟨?_, ?_⟩⟩
      · simp [nmKey, hlp]
      · simp [nmKey, hr]
      · simp [nmKey, hid]
    have hab : tripleGt (nmKey a) (nmKey b) = false := by
      apply bool_not_true
      intro hcon
      have := tripleGt_trans hcon hba
      rw [tripleGt_irrefl] at this
      exact Bool.false_ne_true this
    constructor
    · unfold pickBestMonster
      simp [hba]
    · unfold pickBestMonster
      simp [hab]

/-- Two concrete tied monsters for the C3 witness. -/
def tieA : NamedMonsterE :=
  { monster_no := 1, monster_no_na := 10, name_na := [], name_jp := [],
    rarity := 5, group_size := 1, is_low_priority := false }

def tieB : NamedMonsterE :=
  { monster_no := 2, monster_no_na := 20, name_na := [], name_jp := [],
    rarity := 5, group_size := 1, is_low_priority := false }

/-- Witness for C3 at two concrete monsters with equal classification and
rarity: the larger id wins and no candidate beats the winner. -/
theorem c3_pick_best_max_witness :
    pickBestMonster tieA [tieB] = tieB ∧
      tripleGt (nmKey tieA) (nmKey (pickBestMonster tieA [tieB])) = false := by
  constructor
  · exact (c3_pick_best_max.2 tieA tieB rfl rfl (by decide)).1
  · exact (c3_pick_best_max.1 tieA [tieB]).2 tieA (List.mem_cons_self tieA [tieB])

theorem applyOverrides_no_key (idToNm : List (Nat × NamedMonsterE))
    (nick : PyStr) :
    ∀ (overrides : List (PyStr × Nat))
      (entries : List (PyStr × NamedMonsterE)),
      (∀ p ∈ overrides, p.1 ≠ nick) →
      (applyNicknameOverrides overrides idToNm entries).lookup nick
        = entries.lookup nick := by
  intro overrides
  induction overrides with
  | nil => intro entries _; rfl
  | cons p t ih =>
    intro entries hno
    unfold applyNicknameOverrides
    simp only [List.foldl_cons]
    have hstep :
        (match idToNm.lookup p.2 with
          | some nm => dictInsert entries p.1 nm
          | none => entries).lookup nick = entries.lookup nick := by
      cases idToNm.lookup p.2 with
      | none => rfl
      | some nm =>
        exact lookup_dictInsert_other entries p.1 nick nm
          (fun h => hno p (List.mem_cons_self p t) h.symm)
    have ht := ih (match idToNm.lookup p.2 with
      | some nm => dictInsert entries p.1 nm
      | none => entries) (fun q hq => hno q (List.mem_cons.mpr (Or.inr hq)))
    unfold applyNicknameOverrides at ht
    rw [ht, hstep]

theorem applyOverrides_hit (idToNm : List (Nat × NamedMonsterE))
    (nick : PyStr) (mid : Nat) (nm : NamedMonsterE) :
    ∀ (overrides : List (PyStr × Nat))
      (entries : List (PyStr × NamedMonsterE)),
      (nick, mid) ∈ overrides →
      (overrides.map Prod.fst).Nodup →
      idToNm.lookup mid = some nm →
      (applyNicknameOverrides overrides idToNm entries).lookup nick
        = some nm := by
  intro overrides
  induction overrides with
  | nil => intro entries hmem; exact absurd hmem (List.not_mem_nil _)
  | cons p t ih =>
    intro entries hmem hnodup hid
    simp only [List.map_cons, List.nodup_cons] at hnodup
    rcases List.mem_cons.mp hmem with hp | ht
    · have hp1 : p.1 = nick := by rw [← hp]
      have hp2 : p.2 = mid := by rw [← hp]
      unfold applyNicknameOverrides
      simp only [List.foldl_cons, hp2, hid]
      have hrest := applyOverrides_no_key idToNm nick t
        (dictInsert entries p.1 nm)
        (fun q hq hqn => hnodup.1 (by
          rw [hp1, ← hqn]
          exact List.mem_map_of_mem Prod.fst hq))
      unfold applyNicknameOverrides at hrest
      rw [hrest, hp1, lookup_dictInsert_self]
    · have hstep := ih (match idToNm.lookup p.2 with
        | some nm' => dictInsert entries p.1 nm'
        | none => entries) ht hnodup.2 hid
      unfold applyNicknameOverrides at hstep ⊢
      simp only [List.foldl_cons]
      exact hstep

theorem applyOverrides_skip (idToNm : List (Nat × NamedMonsterE))
    (nick : PyStr) (mid : Nat) :
    ∀ (overrides : List (PyStr × Nat))
      (entries : List (PyStr × NamedMonsterE)),
      (nick, mid) ∈ overrides →
      (overrides.map Prod.fst).Nodup →
      idToNm.lookup mid = none →
      (applyNicknameOverrides overrides idToNm entries).lookup nick
        = entries.lookup nick := by
  intro overrides
  induction overrides with
  | nil => intro entries hmem; exact absurd hmem (List.not_mem_nil _)
  | cons p t ih =>
    intro entries hmem hnodup hid
    simp only [List.map_cons, List.nodup_cons] at hnodup
    rcases List.mem_cons.mp hmem with hp | ht
    · have hp2 : p.2 = mid := by rw [← hp]
      unfold applyNicknameOverrides
      simp only [List.foldl_cons, hp2, hid]
      have hrest := applyOverrides_no_key idToNm nick t entries
        (fun q hq hqn => hnodup.1 (by
          have hp1 : p.1 = nick := by rw [← hp]
          rw [hp1]
          exact hqn ▸ List.mem_map_of_mem Prod.fst hq))
      unfold applyNicknameOverrides at hrest
      exact hrest
    · have hne : p.1 ≠ nick := by
        intro hq
        exact hnodup.1 (hq ▸ List.mem_map_of_mem Prod.fst ht)
      have hstep := ih (match idToNm.lookup p.2 with
        | some nm' => dictInsert entries p.1 nm'
        | none => entries) ht hnodup.2 hid
      unfold applyNicknameOverrides at hstep ⊢
      simp only [List.foldl_cons]
      rw [hstep]
      cases idToNm.lookup p.2 with
      | none => rfl
      | some nm' =>
        exact lookup_dictInsert_other entries p.1 nick nm'
          (fun h => hne h.symm)

/-- Concrete data for the C4 counterexample: a purely numeric override
nickname is intercepted by the ID-lookup stage of `find_monster`. -/
def ovA : NamedMonsterE :=
  { monster_no := 5, monster_no_na := 5, name_na := "a".toList,
    name_jp := [], rarity := 5, group_size := 1, is_low_priority := false }

def ovB : NamedMonsterE :=
  { monster_no := 123, monster_no_na := 123, name_na := "b".toList,
    name_jp := [], rarity := 5, group_size := 1, is_low_priority := false }

def noCloseMatches : ℚ → PyStr → List (PyStr × NamedMonsterE) →
    Option NamedMonsterE := fun _ _ _ => none

def ovIdx : MonsterIndexE :=
  { all_entries :=
      applyNicknameOverrides [("123".toList, 5)] [(5, ovA), (123, ovB)] [],
    two_word_entries := [],
    all_monsters := [ovA, ovB],
    all_na_name_to_monsters := [],
    monster_no_na_to_named_monster := [(5, ovA), (123, ovB)] }

/-- Counterexample for C4: the override table maps the nickname `123` to
alias id 5 (monster `ovA`), and `ovA` is present in the index, so the final
nickname mapping sends `123` to `ovA`; yet a query for that exact nickname
resolves to `ovB` (the monster whose alias id is 123) through the
ID-lookup stage, not to the overridden entity. -/
theorem c4_override_counterexample :
    ovIdx.all_entries.lookup ("123".toList) = some ovA ∧
      find_monster ovIdx noCloseMatches ("123".toList)
        = (some ovB, none, some "ID lookup") ∧
      ovB ≠ ovA := by
  refine ⟨by decide, by decide, by decide⟩

/-- C4 (amended): for every manual nickname-override entry whose alias id
has a monster in the built index, the final nickname mapping sends that
nickname to exactly that monster (the re-application after the bulk build
wins over whatever the bulk build assigned); and provided the nickname is
not a purely numeric string (numeric queries are intercepted by the
ID-lookup stage), a query for that exact nickname resolves to the
overridden entity through the exact-nickname stage. -/
theorem c4_override_wins (overrides : List (PyStr × Nat))
    (idToNm : List (Nat × NamedMonsterE))
    (entries : List (PyStr × NamedMonsterE)) (idx : MonsterIndexE)
    (cm : ℚ → PyStr → List (PyStr × NamedMonsterE) → Option NamedMonsterE)
    (nick : PyStr) (mid : Nat) (nm : NamedMonsterE)
    (hmem : (nick, mid) ∈ overrides)
    (hnodup : (overrides.map Prod.fst).Nodup)
    (hid : idToNm.lookup mid = some nm)
    (hidx : idx.all_entries = applyNicknameOverrides overrides idToNm entries) :
    idx.all_entries.lookup nick = some nm ∧
      (isDigitQuery nick = false →
        find_monster idx cm nick = (some nm, none, some "Exact nickname")) := by
  have h1 : idx.all_entries.lookup nick = some nm := by
    rw [hidx]
    exact applyOverrides_hit idToNm nick mid nm overrides entries hmem
      hnodup hid
  refine ⟨h1, fun hdigit => ?_⟩
  unfold find_monster
  rw [if_neg (by simp [hdigit]), h1]

/-- Concrete data for the C4 witness. -/
def ovA2 : NamedMonsterE :=
  { monster_no := 7, monster_no_na := 7, name_na := "c".toList,
    name_jp := [], rarity := 6, group_size := 1, is_low_priority := false }

def ovIdx2 : MonsterIndexE :=
  { all_entries :=
      applyNicknameOverrides [("kali".toList, 7)] [(7, ovA2)] [],
    two_word_entries := [],
    all_monsters := [ovA2],
    all_na_name_to_monsters := [],
    monster_no_na_to_named_monster := [(7, ovA2)] }

/-- Witness for C4 (amended) at a concrete index with the single override
`kali -> 7`. -/
theorem c4_override_wins_witness :
    ovIdx2.all_entries.lookup ("kali".toList) = some ovA2 ∧
      find_monster ovIdx2 noCloseMatches ("kali".toList)
        = (some ovA2, none, some "Exact nickname") := by
  have h := c4_override_wins [("kali".toList, 7)] [(7, ovA2)] [] ovIdx2
    noCloseMatches ("kali".toList) 7 ovA2 (by decide) (by decide) (by decide)
    rfl
  exact ⟨h.1, h.2 (by decide)⟩

/-- C10: a manual nickname override whose alias id has no monster in the
built index is silently skipped: index construction still succeeds (the
override pass is total) and the final mapping for that nickname is exactly
whatever the bulk build produced, never an entry for an absent monster. -/
theorem c10_override_missing_id (overrides : List (PyStr × Nat))
    (idToNm : List (Nat × NamedMonsterE))
    (entries : List (PyStr × NamedMonsterE)) (nick : PyStr) (mid : Nat)
    (hmem : (nick, mid) ∈ overrides)
    (hnodup : (overrides.map Prod.fst).Nodup)
    (hid : idToNm.lookup mid = none) :
    (applyNicknameOverrides overrides idToNm entries).lookup nick
      = entries.lookup nick := by
  exact applyOverrides_skip idToNm nick mid overrides entries hmem hnodup hid

/-- Concrete monster for the C10 witness. -/
def c10M : NamedMonsterE :=
  { monster_no := 9, monster_no_na := 9, name_na := "d".toList,
    name_jp := [], rarity := 4, group_size := 1, is_low_priority := false }

/-- Witness for C10: an override pointing at the absent alias id 99 leaves
the bulk-built entry for that nickname untouched. -/
theorem c10_override_missing_id_witness :
    (applyNicknameOverrides [("xmas".toList, 99)] []
        [("xmas".toList, c10M)]).lookup ("xmas".toList)
      = [("xmas".toList, c10M)].lookup ("xmas".toList) := by
  exact c10_override_missing_id [("xmas".toList, 99)] []
    [("xmas".toList, c10M)] ("xmas".toList) 99 (by decide) (by decide) rfl

/-- C6: a purely numeric query whose value has no entry in the NA-alias id
map returns the distinct ID-shaped-but-missing reason with absent entity
and absent match-method label, short-circuiting every later stage. -/
theorem c6_numeric_not_found (idx : MonsterIndexE)
    (cm : ℚ → PyStr → List (PyStr × NamedMonsterE) → Option NamedMonsterE)
    (query : PyStr)
    (hdig : isDigitQuery query = true)
    (hmiss : idx.monster_no_na_to_named_monster.lookup (natOfDigits query)
      = none) :
    find_monster idx cm query
      = (none, some "Looks like a monster ID but was not found", none) := by
  unfold find_monster
  rw [if_pos hdig, hmiss]

def emptyIdx : MonsterIndexE :=
  { all_entries := [], two_word_entries := [], all_monsters := [],
    all_na_name_to_monsters := [], monster_no_na_to_named_monster := [] }

/-- Witness for C6: the query `1234` against an index with no monsters. -/
theorem c6_numeric_not_found_witness :
    find_monster emptyIdx noCloseMatches ("1234".toList)
      = (none, some "Looks like a monster ID but was not found", none) := by
  exact c6_numeric_not_found emptyIdx noCloseMatches ("1234".toList)
    (by decide) rfl

/-- C7: for a non-numeric query with no exact nickname match, the
minimum-length gate rejects queries below 2 characters containing Japanese
script with the distinct Japanese too-short reason, and queries below 4
characters without Japanese script with the distinct too-short reason,
before any scan stage runs; and the exact-nickname stage is checked before
the gate, so a short query that is an exact nickname still succeeds. -/
theorem c7_min_length_gate :
    (∀ (idx : MonsterIndexE)
      (cm : ℚ → PyStr → List (PyStr × NamedMonsterE) → Option NamedMonsterE)
      (query : PyStr), isDigitQuery query = false →
      idx.all_entries.lookup query = none →
      query.length < 2 → containsJp query = true →
      find_monster idx cm query
        = (none, some "Japanese queries must be at least 2 characters",
            none)) ∧
    (∀ (idx : MonsterIndexE)
      (cm : ℚ → PyStr → List (PyStr × NamedMonsterE) → Option NamedMonsterE)
      (query : PyStr), isDigitQuery query = false →
      idx.all_entries.lookup query = none →
      query.length < 4 → containsJp query = false →
      find_monster idx cm query
        = (none, some "Your query must be at least 4 letters", none)) ∧
    (∀ (idx : MonsterIndexE)
      (cm : ℚ → PyStr → List (PyStr × NamedMonsterE) → Option NamedMonsterE)
      (query : PyStr) (m : NamedMonsterE), isDigitQuery query = false →
      idx.all_entries.lookup query = some m →
      find_monster idx cm query = (some m, none, some "Exact nickname")) := by
  refine ⟨?_, ?_, ?_⟩
  · intro idx cm query hdig hlook hlen hjp
    unfold find_monster
    rw [if_neg (by simp [hdig]), hlook]
    rw [if_pos (by simp [hlen, hjp])]
  · intro idx cm query hdig hlook hlen hjp
    unfold find_monster
    rw [if_neg (by simp [hdig]), hlook]
    rw [if_neg (by simp [hjp]), if_pos (by simp [hlen, hjp])]
  · intro idx cm query m hdig hlook
    unfold find_monster
    rw [if_neg (by simp [hdig]), hlook]

def c7M : NamedMonsterE :=
  { monster_no := 11, monster_no_na := 11, name_na := "e".toList,
    name_jp := [], rarity := 3, group_size := 1, is_low_priority := false }

def c7Idx : MonsterIndexE :=
  { all_entries := [("ace".toList, c7M)], two_word_entries := [],
    all_monsters := [c7M], all_na_name_to_monsters := [],
    monster_no_na_to_named_monster := [(11, c7M)] }

/-- Witness for C7: the three-letter ASCII query `ace` is rejected with the
too-short reason on an index without that nickname, and succeeds through
the exact-nickname stage on an index that carries it. -/
theorem c7_min_length_gate_witness :
    find_monster emptyIdx noCloseMatches ("ace".toList)
        = (none, some "Your query must be at least 4 letters", none) ∧
      find_monster c7Idx noCloseMatches ("ace".toList)
        = (some c7M, none, some "Exact nickname") := by
  constructor
  · exact c7_min_length_gate.2.1 emptyIdx noCloseMatches ("ace".toList)
      (by decide) rfl (by decide) (by decide)
  · exact c7_min_length_gate.2.2 c7Idx noCloseMatches ("ace".toList) c7M
      (by decide) (by decide)

theorem str_append_len_pos {s : String} (t : String)
    (h : 0 < s.length) : 0 < (s ++ t).length := by
  rw [String.length_append]
  omega

theorem str_append_ne_empty {s : String} (t : String)
    (hs : 0 < s.length) : s ++ t ≠ "" := by
  intro h
  have hlen := congrArg String.length h
  rw [String.length_append] at hlen
  have hz : String.length "" = 0 := rfl
  rw [hz] at hlen
  omega

/-- C9: on every input, `find_monster` returns a triple in which exactly
one of the entity and the reason is present: every success carries the
entity together with a nonempty match-method label and no reason, and
every rejection carries a nonempty reason with no entity and no label. -/
theorem c9_result_shape (idx : MonsterIndexE)
    (cm : ℚ → PyStr → List (PyStr × NamedMonsterE) → Option NamedMonsterE)
    (query : PyStr) :
    (∃ m lbl, find_monster idx cm query = (some m, none, some lbl)
      ∧ lbl ≠ "") ∨
    (∃ r, find_monster idx cm query = (none, some r, none) ∧ r ≠ "") := by
  unfold find_monster
  split
  · split
    · exact Or.inr ⟨_, rfl, by decide⟩
    · exact Or.inl ⟨_, _, rfl, by decide⟩
  · split
    · exact Or.inl ⟨_, _, rfl, by decide⟩
    · split
      · exact Or.inr ⟨_, rfl, by decide⟩
      · split
        · exact Or.inr ⟨_, rfl, by decide⟩
        · unfold findScan
          split
          · exact Or.inl ⟨_, _, rfl, str_append_ne_empty _ (by decide)⟩
          · split
            · exact Or.inl ⟨_, _, rfl, str_append_ne_empty _
                (str_append_len_pos _ (str_append_len_pos _
                  (str_append_len_pos _ (by decide))))⟩
            · split
              · exact Or.inl ⟨_, _, rfl, str_append_ne_empty _ (by decide)⟩
              · split
                · exact Or.inl ⟨_, _, rfl, str_append_ne_empty _ (by decide)⟩
                · split
                  · exact Or.inl ⟨_, _, rfl,
                      str_append_ne_empty _ (by decide)⟩
                  · split
                    · exact Or.inl ⟨_, _, rfl,
                        str_append_ne_empty _ (by decide)⟩
                    · split
                      · exact Or.inl ⟨_, _, rfl, by decide⟩
                      · split
                        · exact Or.inl ⟨_, _, rfl, by decide⟩
                        · exact Or.inr ⟨_, rfl,
                            str_append_ne_empty _ (by decide)⟩

end Padguide2
